import Mathlib

/-!
Verification of `modules/llama_cpp_python_hijack.py`.

The module holds two pieces of process-wide state, `imported_module` and
`not_available_modules`, and three functions: the variant selector
`llama_cpp_lib`, the instrumented batched evaluator `eval_with_progress`,
and the patch step `monkey_patch_llama_cpp_python`.

The shallow embedding below models:
  * a library handle (`Lib`) by the attributes the module reads and writes
    on it (`Llama.eval`, `Llama.generate`, `Llama.original_generate`, the
    `_is_patched` marker, and the optional `llama_chat_format` attribute
    with its `Jinja2ChatFormatter` class);
  * the process state (`SysState`) by the two module-level globals plus the
    Python module cache `sys.modules`, through which
    `importlib.import_module` returns an already-loaded module without a
    fresh load attempt;
  * the environment by a function `env : String → LoadResult` giving, for
    each module name, the outcome of a fresh load: success with a handle,
    `ImportError` (module not found), or any other exception;
  * each call additionally returns a trace of `ImpEvent`s, one per
    invocation of `importlib.import_module`, distinguishing cache hits
    (`hit`) from fresh load attempts (`load` on success, `failNF` on
    `ImportError`, `failOther` on any other exception).
-/

/-- One behaviour of `Llama.generate`: either some unpatched implementation
(identified by a tag) or the wrapper `my_generate` installed by the patch. -/
inductive GenFn where
  | base (id : Nat)
  | my_generate
deriving DecidableEq, Repr

/-- One behaviour of `Llama.eval`: an unpatched implementation or the
instrumented `eval_with_progress`. -/
inductive EvalFn where
  | base (id : Nat)
  | eval_with_progress_fn
deriving DecidableEq, Repr

/-- One behaviour of `Jinja2ChatFormatter.__init__`. -/
inductive InitFn where
  | base (id : Nat)
  | patched_init
deriving DecidableEq, Repr

/-- The attributes of `lib.Llama` that the module reads or writes.
`is_patched` models `getattr(lib.Llama, '_is_patched', False)`: absent
attribute and `False` are both modelled as `false`. -/
structure LlamaClass where
  eval : EvalFn
  generate : GenFn
  original_generate : Option GenFn
  is_patched : Bool
deriving DecidableEq, Repr

/-- The attributes of `lib.llama_chat_format.Jinja2ChatFormatter`
that the module reads or writes. -/
structure FormatterClass where
  init : InitFn
  is_patched : Bool
deriving DecidableEq, Repr

/-- A library handle: the `Llama` class and, when
`hasattr(lib, 'llama_chat_format')` and the formatter class exists, that
formatter class (`none` models the attribute being absent). -/
structure Lib where
  Llama : LlamaClass
  llama_chat_format : Option FormatterClass
deriving DecidableEq, Repr

/-- Outcome of a fresh load of a module name by the Python import
machinery: success, `ImportError`, or any other exception. -/
inductive LoadResult where
  | ok (lib : Lib)
  | importError
  | otherError
deriving DecidableEq, Repr

/-- The process state: the two module-level globals of the hijack module
plus `sys.modules`, the interpreter's module cache (an association list
from module name to module object). -/
structure SysState where
  imported_module : Option String
  not_available_modules : List String
  sys_modules : List (String × Lib)
deriving DecidableEq, Repr

/-- Result of one `llama_cpp_lib` call: a normal return (the handle or
`None`), the variant-conflict exception, or a propagated non-`ImportError`
exception. -/
inductive CallResult where
  | ret (lib : Option Lib)
  | conflictExc (msg : String)
  | otherExc
deriving DecidableEq, Repr

/-- One `importlib.import_module` invocation, as recorded in a call's
trace: a `sys.modules` cache hit, a successful fresh load, a fresh load
failing with `ImportError`, or a fresh load failing with another
exception. -/
inductive ImpEvent where
  | hit (name : String)
  | load (name : String)
  | failNF (name : String)
  | failOther (name : String)
deriving DecidableEq, Repr

/-- The module name an import event is about. -/
def eventName : ImpEvent → String
  | ImpEvent.hit n => n
  | ImpEvent.load n => n
  | ImpEvent.failNF n => n
  | ImpEvent.failOther n => n

/-- Whether an event is a fresh load attempt (anything that consults the
loader rather than the `sys.modules` cache). -/
def isLoadAttempt : ImpEvent → Bool
  | ImpEvent.hit _ => false
  | ImpEvent.load _ => true
  | ImpEvent.failNF _ => true
  | ImpEvent.failOther _ => true

/-- Number of fresh load attempts in a trace. -/
def numLoadAttempts (evs : List ImpEvent) : Nat :=
  (evs.filter isLoadAttempt).length

/-- Dictionary lookup in the `sys.modules` association list. -/
def lookupMod : List (String × Lib) → String → Option Lib
  | [], _ => none
  | (k, v) :: rest, name => if k = name then some v else lookupMod rest name

/-- In-place mutation of the module object registered under `name`:
the entry keeps its key, its value becomes `lib`. -/
def updateMod : List (String × Lib) → String → Lib → List (String × Lib)
  | [], _, _ => []
  | (k, v) :: rest, name, lib =>
    if k = name then (k, lib) :: rest else (k, v) :: updateMod rest name lib

/-- Result of `importlib.import_module` as seen by the caller. -/
inductive ImpResult where
  | ok (lib : Lib)
  | importError
  | otherError
deriving DecidableEq, Repr

/-- `importlib.import_module name`: return the cached module when `name`
is in `sys.modules`; otherwise attempt a fresh load via the environment,
registering the module in `sys.modules` on success. The event records
which of the four cases happened. -/
def import_module (env : String → LoadResult) (st : SysState) (name : String) :
    ImpResult × SysState × ImpEvent :=
  match lookupMod st.sys_modules name with
  | some lib => (ImpResult.ok lib, st, ImpEvent.hit name)
  | none =>
    match env name with
    | LoadResult.ok lib =>
      (ImpResult.ok lib,
        { st with sys_modules := st.sys_modules ++ [(name, lib)] },
        ImpEvent.load name)
    | LoadResult.importError => (ImpResult.importError, st, ImpEvent.failNF name)
    | LoadResult.otherError => (ImpResult.otherError, st, ImpEvent.failOther name)

/-- The relevant fields of `shared.args`: the two capability flags the
selector reads via `getattr`, and the `streaming_llm` flag read by the
generate wrapper. -/
structure Args where
  cpu : Bool
  tensorcores : Bool
  streaming_llm : Bool
deriving DecidableEq, Repr

/-- `getattr(shared.args, arg)` for the attribute names the selector can
pass (only `"cpu"` and `"tensorcores"` occur in the candidate lists). -/
def getattrArg (cfg : Args) : String → Bool
  | "cpu" => cfg.cpu
  | "tensorcores" => cfg.tensorcores
  | _ => false

/-- `should_import = (arg is None or getattr(shared.args, arg))`. -/
def should_import (cfg : Args) : Option String → Bool
  | none => true
  | some a => getattrArg cfg a

/-- `if imported_module and imported_module != lib_name`: Python truthiness
makes `None` and the empty string falsy. -/
def conflict_check : Option String → String → Bool
  | none, _ => false
  | some m, lib_name => decide (m ≠ "") && decide (m ≠ lib_name)

/-- The message of the conflict exception raised at line 43 of the
source. -/
def conflictMsg (lib_name imported : String) : String :=
  "Cannot import `" ++ lib_name ++ "` because `" ++ imported ++
    "` is already imported. Switching to a different version of llama-cpp-python currently requires a server restart."

/-- The candidate list built at lines 22-32: on macOS a single ungated
fallback entry, elsewhere the four-entry preference list. -/
def lib_names (is_macos : Bool) : List (Option String × String) :=
  if is_macos then
    [(none, "llama_cpp")]
  else
    [(some "cpu", "llama_cpp"),
     (some "tensorcores", "llama_cpp_cuda_tensorcores"),
     (none, "llama_cpp_cuda"),
     (none, "llama_cpp")]

/-- `monkey_patch_llama_cpp_python(lib)` (lines 104-165): if the `Llama`
class is already marked patched, do nothing; otherwise install
`eval_with_progress` as `eval`, save `generate` into `original_generate`,
install the `my_generate` wrapper, patch `Jinja2ChatFormatter.__init__`
when the formatter class exists and is not itself marked patched, and
finally set the `_is_patched` marker. -/
def monkey_patch_llama_cpp_python (lib : Lib) : Lib :=
  if lib.Llama.is_patched then
    lib
  else
    let lib1 := { lib with
      Llama := { lib.Llama with
        eval := EvalFn.eval_with_progress_fn,
        original_generate := some lib.Llama.generate,
        generate := GenFn.my_generate } }
    let lib2 :=
      match lib1.llama_chat_format with
      | some fmt =>
        if fmt.is_patched then lib1
        else { lib1 with
          llama_chat_format := some { init := InitFn.patched_init, is_patched := true } }
      | none => lib1
    { lib2 with Llama := { lib2.Llama with is_patched := true } }

/-- The `for arg, lib_name in lib_names` loop of `llama_cpp_lib`
(lines 34-54): skip candidates already in `not_available_modules`; for an
eligible candidate, raise the conflict exception when a different variant
is already loaded, otherwise import, record the loaded variant, apply the
patch step (mutating the module object held in `sys.modules`) and return
the handle; on `ImportError` record the variant as unavailable and
continue; any other exception propagates; when the list is exhausted
return `None`. -/
def llama_cpp_lib_loop (cfg : Args) (env : String → LoadResult) :
    List (Option String × String) → SysState → CallResult × SysState × List ImpEvent
  | [], st => (CallResult.ret none, st, [])
  | (arg, lib_name) :: rest, st =>
    if lib_name ∈ st.not_available_modules then
      llama_cpp_lib_loop cfg env rest st
    else if should_import cfg arg then
      if conflict_check st.imported_module lib_name then
        (CallResult.conflictExc (conflictMsg lib_name (st.imported_module.getD "")), st, [])
      else
        match import_module env st lib_name with
        | (ImpResult.ok lib, st1, ev) =>
          let patched := monkey_patch_llama_cpp_python lib
          (CallResult.ret (some patched),
            { st1 with
              imported_module := some lib_name,
              sys_modules := updateMod st1.sys_modules lib_name patched },
            [ev])
        | (ImpResult.importError, st1, ev) =>
          let st2 := { st1 with not_available_modules := lib_name :: st1.not_available_modules }
          let r2 := llama_cpp_lib_loop cfg env rest st2
          (r2.1, r2.2.1, ev :: r2.2.2)
        | (ImpResult.otherError, st1, ev) => (CallResult.otherExc, st1, [ev])
    else
      llama_cpp_lib_loop cfg env rest st

/-- `llama_cpp_lib()` (lines 15-54): build the platform candidate list and
run the selection loop on the current process state. -/
def llama_cpp_lib (cfg : Args) (env : String → LoadResult) (is_macos : Bool)
    (st : SysState) : CallResult × SysState × List ImpEvent :=
  llama_cpp_lib_loop cfg env (lib_names is_macos) st

/-- A sequence of `n` successive `llama_cpp_lib` calls under a fixed
configuration and environment, collecting all results and the
concatenated event trace. -/
def runCalls (cfg : Args) (env : String → LoadResult) (is_macos : Bool) :
    Nat → SysState → List CallResult × SysState × List ImpEvent
  | 0, st => ([], st, [])
  | n + 1, st =>
    let r := llama_cpp_lib cfg env is_macos st
    let rs := runCalls cfg env is_macos n r.2.1
    (r.1 :: rs.1, rs.2.1, r.2.2 ++ rs.2.2)

/-- The first candidate of a list that is neither in the unavailable set
nor ineligible under the configuration: the first one the loop acts on. -/
def firstCandidate (cfg : Args) (na : List String) :
    List (Option String × String) → Option (Option String × String)
  | [] => none
  | (arg, nm) :: rest =>
    if nm ∈ na then firstCandidate cfg na rest
    else if should_import cfg arg then some (arg, nm)
    else firstCandidate cfg na rest

/-- The fields of the `Llama` instance that `eval_with_progress` reads or
writes (lines 57-101). `input_ids` and `scores` model the fixed-size numpy
arrays by lists updated in place with `List.set`; `logits_all` flattens
`self.context_params.logits_all`; the logits rows themselves are opaque
values of a type parameter `α`, one row per position. -/
structure EvalSt (α : Type) where
  n_tokens : Nat
  n_batch : Nat
  logits_all : Bool
  input_ids : List Int
  scores : List α
  last_updated_index : Int
deriving DecidableEq, Repr

/-- `self.input_ids[n_past : n_past + n_tokens] = batch`: element-wise
slice assignment starting at index `s` (`List.set` leaves the list
unchanged on an out-of-range index). -/
def setSlice (a : List Int) (s : Nat) : List Int → List Int
  | [] => a
  | x :: xs => setSlice (a.set s x) (s + 1) xs

/-- `self.scores[n_past : n_past + n_tokens, :] = logits`: write the rows
`f 0, …, f (n-1)` at indices `s, …, s+n-1`. -/
def setRows {α : Type} (a : List α) (s n : Nat) (f : Nat → α) : List α :=
  (List.range n).foldl (fun acc k => acc.set (s + k) (f k)) a

/-- One write into `scores` on the `logits_all == False` branch of
`eval_with_progress` (lines 91-99), recording the `n_past` and batch
length of its iteration and the row index actually used. -/
structure ScoreWrite where
  n_past : Nat
  len : Nat
  idx : Int
deriving DecidableEq, Repr

/-- The `for i in progress_bar` loop of `eval_with_progress`
(lines 72-101), iterating `i = 0, n_batch, 2·n_batch, …` below
`tokens.length` exactly as `range(0, len(tokens), n_batch)` does (the
`tqdm` wrapper at lines 67-70 only adds display and leaves the iteration
unchanged). `L i k` is row `k` of the logits the context holds after
decoding the batch starting at offset `i`; `set_batch` and `decode`
(lines 76-79) act only on the native context and have no modelled state.
Returns the final instance state, the list of batches taken, and the
trace of single-row score writes. The recursion is structural on a fuel
argument; every run below is made with `tokens.length` fuel, which covers
the whole iteration since each round advances `i` by `nb ≥ 1` (the lemmas
carry the invariant `tokens.length - i ≤ fuel`, and with the fuel spent
the loop stops exactly as it does once `i` reaches the end). -/
def eval_loop {α : Type} (L : Nat → Nat → α) (tokens : List Int) (nb : Nat) :
    Nat → Nat → EvalSt α → EvalSt α × List (List Int) × List ScoreWrite
  | 0, _, st => (st, [], [])
  | fuel + 1, i, st =>
    if i < tokens.length then
      let batch := (tokens.drop i).take (min tokens.length (i + nb) - i)
      let n_past := st.n_tokens
      let n_toks := batch.length
      let st1 := { st with input_ids := setSlice st.input_ids n_past batch }
      let step :=
        if st1.logits_all then
          ({ st1 with
              scores := setRows st1.scores n_past n_toks (L i),
              last_updated_index := (n_past : Int) + n_toks - 1 },
            ([] : List ScoreWrite))
        else
          let last_token_index : Int :=
            min ((n_past : Int) + n_toks - 1) ((st1.scores.length : Int) - 1)
          ({ st1 with
              scores := st1.scores.set last_token_index.toNat (L i 0),
              last_updated_index := last_token_index },
            [⟨n_past, n_toks, last_token_index⟩])
      let st2 := { step.1 with n_tokens := step.1.n_tokens + n_toks }
      let rest := eval_loop L tokens nb fuel (i + nb) st2
      (rest.1, batch :: rest.2.1, step.2 ++ rest.2.2)
    else
      (st, [], [])

/-- `eval_with_progress(self, tokens)` (lines 57-101): the
`kv_cache_seq_rm` call acts only on the native context; the loop then
processes the tokens in batches of `self.n_batch`, starting at `i = 0`
with `tokens.length` fuel. The hypothesis `0 < st.n_batch` reflects that
`range(0, len(tokens), 0)` would raise in Python. -/
def eval_with_progress {α : Type} (L : Nat → Nat → α) (st : EvalSt α)
    (tokens : List Int) (_h : 0 < st.n_batch) :
    EvalSt α × List (List Int) × List ScoreWrite :=
  eval_loop L tokens st.n_batch tokens.length 0 st

/-! ## Helper lemmas about the patch step and the module cache -/

/-- After the patch step the `_is_patched` marker on `Llama` is set. -/
theorem monkey_patch_is_patched (lib : Lib) :
    (monkey_patch_llama_cpp_python lib).Llama.is_patched = true := by
  unfold monkey_patch_llama_cpp_python
  split
  · assumption
  · cases lib.llama_chat_format <;> simp

/-- The patch step does nothing on a handle already marked patched. -/
theorem monkey_patch_of_patched (lib : Lib) (h : lib.Llama.is_patched = true) :
    monkey_patch_llama_cpp_python lib = lib := by
  unfold monkey_patch_llama_cpp_python
  simp [h]

/-- The patch step is idempotent. -/
theorem monkey_patch_idem (lib : Lib) :
    monkey_patch_llama_cpp_python (monkey_patch_llama_cpp_python lib) =
      monkey_patch_llama_cpp_python lib :=
  monkey_patch_of_patched _ (monkey_patch_is_patched lib)

/-- Mutating a cached module to the value it already holds leaves the
cache unchanged. -/
theorem updateMod_self (l : List (String × Lib)) (name : String) (lib : Lib)
    (h : lookupMod l name = some lib) : updateMod l name lib = l := by
  induction l with
  | nil => simp [lookupMod] at h
  | cons p rest ih =>
    obtain ⟨k, v⟩ := p
    by_cases hk : k = name
    · subst hk
      simp [lookupMod] at h
      simp [updateMod, h]
    · simp [lookupMod, hk] at h
      simp [updateMod, hk, ih h]

/-- Looking up the key just mutated returns the new value. -/
theorem lookupMod_updateMod (l : List (String × Lib)) (name : String) (lib w : Lib)
    (h : lookupMod l name = some w) :
    lookupMod (updateMod l name lib) name = some lib := by
  induction l with
  | nil => simp [lookupMod] at h
  | cons p rest ih =>
    obtain ⟨k, v⟩ := p
    by_cases hk : k = name
    · subst hk
      simp [updateMod, lookupMod]
    · simp [lookupMod, hk] at h
      simp [updateMod, lookupMod, hk, ih h]

/-- Registering a fresh module at the end of the cache makes it
retrievable. -/
theorem lookupMod_append (l : List (String × Lib)) (name : String) (lib : Lib)
    (h : lookupMod l name = none) :
    lookupMod (l ++ [(name, lib)]) name = some lib := by
  induction l with
  | nil => simp [lookupMod]
  | cons p rest ih =>
    obtain ⟨k, v⟩ := p
    by_cases hk : k = name
    · subst hk; simp [lookupMod] at h
    · simp [lookupMod, hk] at h ⊢
      exact ih h

/-! ## Helper lemmas about the selection loop -/

/-- The unavailable set only grows across one selection loop. -/
theorem loop_na_mono (cfg : Args) (env : String → LoadResult) :
    ∀ (names : List (Option String × String)) (st : SysState) (x : String),
      x ∈ st.not_available_modules →
      x ∈ (llama_cpp_lib_loop cfg env names st).2.1.not_available_modules := by
  intro names
  induction names with
  | nil => intro st x hx; exact hx
  | cons c rest ih =>
    obtain ⟨arg, lib_name⟩ := c
    intro st x hx
    simp only [llama_cpp_lib_loop]
    split
    · exact ih st x hx
    · split
      · split
        · exact hx
        · rcases hl : lookupMod st.sys_modules lib_name with _ | l
          · rcases he : env lib_name with l' | _ | _
            · simp only [import_module, hl, he]
              exact hx
            · simp only [import_module, hl, he]
              exact ih _ x (List.mem_cons_of_mem _ hx)
            · simp only [import_module, hl, he]
              exact hx
          · simp only [import_module, hl]
            exact hx
      · exact ih st x hx

/-- A name already in the unavailable set is never passed to
`importlib.import_module` by the loop: no event of the call mentions it. -/
theorem loop_no_event_of_na (cfg : Args) (env : String → LoadResult) :
    ∀ (names : List (Option String × String)) (st : SysState) (x : String),
      x ∈ st.not_available_modules →
      ∀ e ∈ (llama_cpp_lib_loop cfg env names st).2.2, eventName e ≠ x := by
  intro names
  induction names with
  | nil => intro st x hx e he; simp [llama_cpp_lib_loop] at he
  | cons c rest ih =>
    obtain ⟨arg, lib_name⟩ := c
    intro st x hx
    by_cases hmem : lib_name ∈ st.not_available_modules
    · simp only [llama_cpp_lib_loop, if_pos hmem]
      exact ih st x hx
    · have hne : lib_name ≠ x := fun hEq => hmem (hEq ▸ hx)
      simp only [llama_cpp_lib_loop, if_neg hmem]
      by_cases hs : should_import cfg arg = true
      · rw [if_pos hs]
        by_cases hc : conflict_check st.imported_module lib_name = true
        · rw [if_pos hc]
          intro e he
          simp at he
        · rw [if_neg hc]
          rcases hl : lookupMod st.sys_modules lib_name with _ | l
          · rcases henv : env lib_name with l' | _ | _
            · simp only [import_module, hl, henv]
              intro e he
              simp at he
              simp [he, eventName, hne]
            · simp only [import_module, hl, henv]
              intro e he
              simp at he
              rcases he with he | he
              · simp [he, eventName, hne]
              · exact ih _ x (List.mem_cons_of_mem _ hx) e he
            · simp only [import_module, hl, henv]
              intro e he
              simp at he
              simp [he, eventName, hne]
          · simp only [import_module, hl]
            intro e he
            simp at he
            simp [he, eventName, hne]
      · rw [if_neg hs]
        exact ih st x hx

/-- Once the loaded-variant marker holds a nonempty name, one selection
loop leaves it unchanged. -/
theorem loop_imported_preserved (cfg : Args) (env : String → LoadResult) :
    ∀ (names : List (Option String × String)) (st : SysState) (m : String),
      st.imported_module = some m → m ≠ "" →
      (llama_cpp_lib_loop cfg env names st).2.1.imported_module = some m := by
  intro names
  induction names with
  | nil => intro st m hm _; exact hm
  | cons c rest ih =>
    obtain ⟨arg, lib_name⟩ := c
    intro st m hm hmne
    by_cases hmem : lib_name ∈ st.not_available_modules
    · simp only [llama_cpp_lib_loop, if_pos hmem]
      exact ih st m hm hmne
    · simp only [llama_cpp_lib_loop, if_neg hmem]
      by_cases hs : should_import cfg arg = true
      · rw [if_pos hs]
        by_cases hc : conflict_check st.imported_module lib_name = true
        · rw [if_pos hc]
          exact hm
        · rw [if_neg hc]
          rw [hm] at hc
          simp [conflict_check, hmne] at hc
          rcases hl : lookupMod st.sys_modules lib_name with _ | l
          · rcases henv : env lib_name with l' | _ | _
            · simp only [import_module, hl, henv]
              simp [hc]
            · simp only [import_module, hl, henv]
              exact ih _ m hm hmne
            · simp only [import_module, hl, henv]
              exact hm
          · simp only [import_module, hl]
            simp [hc]
      · rw [if_neg hs]
        exact ih st m hm hmne

/-- Every import event of one selection loop is about a name from the
candidate list. -/
theorem loop_event_names (cfg : Args) (env : String → LoadResult) :
    ∀ (names : List (Option String × String)) (st : SysState),
      ∀ e ∈ (llama_cpp_lib_loop cfg env names st).2.2,
        eventName e ∈ names.map Prod.snd := by
  intro names
  induction names with
  | nil => intro st e he; simp [llama_cpp_lib_loop] at he
  | cons c rest ih =>
    obtain ⟨arg, lib_name⟩ := c
    intro st e he
    rw [llama_cpp_lib_loop] at he
    simp only [List.map_cons, List.mem_cons]
    by_cases hmem : lib_name ∈ st.not_available_modules
    · rw [if_pos hmem] at he
      exact Or.inr (ih st e he)
    · rw [if_neg hmem] at he
      by_cases hs : should_import cfg arg = true
      · rw [if_pos hs] at he
        by_cases hc : conflict_check st.imported_module lib_name = true
        · rw [if_pos hc] at he
          simp at he
        · rw [if_neg hc] at he
          rcases hl : lookupMod st.sys_modules lib_name with _ | l
          · rcases henv : env lib_name with l' | _ | _
            · simp only [import_module, hl, henv] at he
              simp at he
              simp [he, eventName]
            · simp only [import_module, hl, henv] at he
              simp at he
              rcases he with he | he
              · simp [he, eventName]
              · exact Or.inr (ih _ e he)
            · simp only [import_module, hl, henv] at he
              simp at he
              simp [he, eventName]
          · simp only [import_module, hl] at he
            simp at he
            simp [he, eventName]
      · rw [if_neg hs] at he
        exact Or.inr (ih st e he)

/-- After a selection loop returns a handle, the resulting state is a
fixpoint: re-running the loop on it returns the same handle and the same
state, with a single cache hit on the loaded variant as the only import
event. -/
theorem loop_success_fixpoint (cfg : Args) (env : String → LoadResult) :
    ∀ (names : List (Option String × String)) (st st1 : SysState)
      (l : Lib) (evs : List ImpEvent),
      llama_cpp_lib_loop cfg env names st = (CallResult.ret (some l), st1, evs) →
      ∃ nm, st1.imported_module = some nm ∧
        llama_cpp_lib_loop cfg env names st1 =
          (CallResult.ret (some l), st1, [ImpEvent.hit nm]) := by
  intro names
  induction names with
  | nil =>
    intro st st1 l evs h
    simp [llama_cpp_lib_loop] at h
  | cons c rest ih =>
    obtain ⟨arg, lib_name⟩ := c
    intro st st1 l evs h
    by_cases hmem : lib_name ∈ st.not_available_modules
    · rw [llama_cpp_lib_loop, if_pos hmem] at h
      obtain ⟨nm, hnm, hfix⟩ := ih st st1 l evs h
      have hmem1 : lib_name ∈ st1.not_available_modules := by
        have := loop_na_mono cfg env rest st lib_name hmem
        rwa [h] at this
      refine ⟨nm, hnm, ?_⟩
      rw [llama_cpp_lib_loop, if_pos hmem1]
      exact hfix
    · rw [llama_cpp_lib_loop, if_neg hmem] at h
      by_cases hs : should_import cfg arg = true
      · rw [if_pos hs] at h
        by_cases hc : conflict_check st.imported_module lib_name = true
        · rw [if_pos hc] at h
          simp at h
        · rw [if_neg hc] at h
          rcases hl : lookupMod st.sys_modules lib_name with _ | cmod
          · rcases henv : env lib_name with lib0 | _ | _
            · -- fresh successful load
              simp only [import_module, hl, henv] at h
              simp only [Prod.mk.injEq, CallResult.ret.injEq, Option.some.injEq] at h
              obtain ⟨hlib, hst, hevs⟩ := h
              subst hlib hst
              have hlook0 : lookupMod (st.sys_modules ++ [(lib_name, lib0)]) lib_name
                  = some lib0 := lookupMod_append _ _ _ hl
              have hlook1 : lookupMod
                  (updateMod (st.sys_modules ++ [(lib_name, lib0)]) lib_name
                    (monkey_patch_llama_cpp_python lib0)) lib_name
                  = some (monkey_patch_llama_cpp_python lib0) :=
                lookupMod_updateMod _ _ _ _ hlook0
              refine ⟨lib_name, rfl, ?_⟩
              rw [llama_cpp_lib_loop, if_neg hmem, if_pos hs]
              rw [if_neg (by simp [conflict_check])]
              simp only [import_module, hlook1]
              simp [monkey_patch_idem, updateMod_self _ _ _ hlook1]
            · -- fresh load fails with ImportError, loop continues
              simp only [import_module, hl, henv] at h
              simp only [Prod.mk.injEq] at h
              obtain ⟨hr, hst, hevs⟩ := h
              set st2 : SysState :=
                { st with not_available_modules := lib_name :: st.not_available_modules }
              have hrest : llama_cpp_lib_loop cfg env rest st2 =
                  (CallResult.ret (some l),
                    (llama_cpp_lib_loop cfg env rest st2).2.1,
                    (llama_cpp_lib_loop cfg env rest st2).2.2) := by
                rw [← hr]
              obtain ⟨nm, hnm, hfix⟩ := ih st2 _ l _ hrest
              rw [hst] at hnm hfix
              have hmem1 : lib_name ∈ st1.not_available_modules := by
                have := loop_na_mono cfg env rest st2 lib_name (by simp [st2])
                rwa [hst] at this
              refine ⟨nm, hnm, ?_⟩
              rw [llama_cpp_lib_loop, if_pos hmem1]
              exact hfix
            · -- fresh load fails with another exception
              simp only [import_module, hl, henv] at h
              simp at h
          · -- sys.modules cache hit
            simp only [import_module, hl] at h
            simp only [Prod.mk.injEq, CallResult.ret.injEq, Option.some.injEq] at h
            obtain ⟨hlib, hst, hevs⟩ := h
            subst hlib hst
            have hlook1 : lookupMod
                (updateMod st.sys_modules lib_name
                  (monkey_patch_llama_cpp_python cmod)) lib_name
                = some (monkey_patch_llama_cpp_python cmod) :=
              lookupMod_updateMod _ _ _ _ hl
            refine ⟨lib_name, rfl, ?_⟩
            rw [llama_cpp_lib_loop, if_neg hmem, if_pos hs]
            rw [if_neg (by simp [conflict_check])]
            simp only [import_module, hlook1]
            simp [monkey_patch_idem, updateMod_self _ _ _ hlook1]
      · rw [if_neg hs] at h
        obtain ⟨nm, hnm, hfix⟩ := ih st st1 l evs h
        refine ⟨nm, hnm, ?_⟩
        by_cases hmem2 : lib_name ∈ st1.not_available_modules
        · rw [llama_cpp_lib_loop, if_pos hmem2]
          exact hfix
        · rw [llama_cpp_lib_loop, if_neg hmem2, if_neg hs]
          exact hfix

/-- When a variant is already loaded and the first candidate the loop acts
on (not unavailable, eligible) names a different variant, the loop raises
the conflict exception with no state change and no import event. -/
theorem loop_conflict (cfg : Args) (env : String → LoadResult) :
    ∀ (names : List (Option String × String)) (st : SysState)
      (m : String) (arg : Option String) (nm : String),
      st.imported_module = some m → m ≠ "" →
      firstCandidate cfg st.not_available_modules names = some (arg, nm) →
      nm ≠ m →
      llama_cpp_lib_loop cfg env names st =
        (CallResult.conflictExc (conflictMsg nm m), st, []) := by
  intro names
  induction names with
  | nil => intro st m arg nm _ _ hfc _; simp [firstCandidate] at hfc
  | cons c rest ih =>
    obtain ⟨arg0, nm0⟩ := c
    intro st m arg nm hm hmne hfc hne
    by_cases hmem : nm0 ∈ st.not_available_modules
    · rw [firstCandidate, if_pos hmem] at hfc
      rw [llama_cpp_lib_loop, if_pos hmem]
      exact ih st m arg nm hm hmne hfc hne
    · rw [firstCandidate, if_neg hmem] at hfc
      by_cases hs : should_import cfg arg0 = true
      · rw [if_pos hs] at hfc
        simp only [Option.some.injEq, Prod.mk.injEq] at hfc
        obtain ⟨harg, hnm⟩ := hfc
        subst hnm
        have hcc : conflict_check st.imported_module nm0 = true := by
          rw [hm]
          have hmn : ¬ m = nm0 := fun hEq => hne hEq.symm
          simp [conflict_check, hmne, hmn]
        rw [llama_cpp_lib_loop, if_neg hmem, if_pos hs, if_pos hcc, hm]
        rfl
      · rw [if_neg hs] at hfc
        rw [llama_cpp_lib_loop, if_neg hmem, if_neg hs]
        exact ih st m arg nm hm hmne hfc hne

/-- Error classification of one selection loop: the unavailable set grows
by exactly the names whose fresh load failed with `ImportError`; the call
raises a non-conflict exception exactly when some fresh load failed with
another exception; and each failure event reflects the environment's
outcome for that name. -/
theorem loop_error_class (cfg : Args) (env : String → LoadResult) :
    ∀ (names : List (Option String × String)) (st : SysState),
      (∀ nm, nm ∈ (llama_cpp_lib_loop cfg env names st).2.1.not_available_modules ↔
        (nm ∈ st.not_available_modules ∨
          ImpEvent.failNF nm ∈ (llama_cpp_lib_loop cfg env names st).2.2)) ∧
      ((∃ nm, ImpEvent.failOther nm ∈ (llama_cpp_lib_loop cfg env names st).2.2) ↔
        (llama_cpp_lib_loop cfg env names st).1 = CallResult.otherExc) ∧
      (∀ nm, ImpEvent.failNF nm ∈ (llama_cpp_lib_loop cfg env names st).2.2 →
        env nm = LoadResult.importError) ∧
      (∀ nm, ImpEvent.failOther nm ∈ (llama_cpp_lib_loop cfg env names st).2.2 →
        env nm = LoadResult.otherError) := by
  intro names
  induction names with
  | nil => intro st; simp [llama_cpp_lib_loop]
  | cons c rest ih =>
    obtain ⟨arg, lib_name⟩ := c
    intro st
    by_cases hmem : lib_name ∈ st.not_available_modules
    · simpa only [llama_cpp_lib_loop, if_pos hmem] using ih st
    · simp only [llama_cpp_lib_loop, if_neg hmem]
      by_cases hs : should_import cfg arg = true
      · rw [if_pos hs]
        by_cases hc : conflict_check st.imported_module lib_name = true
        · rw [if_pos hc]
          simp
        · rw [if_neg hc]
          rcases hl : lookupMod st.sys_modules lib_name with _ | cmod
          · rcases henv : env lib_name with lib0 | _ | _
            · simp only [import_module, hl, henv]
              simp
            · simp only [import_module, hl, henv]
              obtain ⟨iha, ihb, ihc, ihd⟩ :=
                ih { st with not_available_modules := lib_name :: st.not_available_modules }
              refine ⟨?_, ?_, ?_, ?_⟩
              · intro nm
                rw [iha nm]
                simp only [List.mem_cons, ImpEvent.failNF.injEq]
                constructor
                · rintro (h1 | h1)
                  · rcases h1 with h1 | h1
                    · exact Or.inr (Or.inl (ImpEvent.failNF.injEq nm lib_name ▸ (by simp [h1])))
                    · exact Or.inl h1
                  · exact Or.inr (Or.inr h1)
                · rintro (h1 | h1 | h1)
                  · exact Or.inl (Or.inr h1)
                  · cases h1
                    exact Or.inl (Or.inl rfl)
                  · exact Or.inr h1
              · rw [← ihb]
                simp
              · intro nm hnm
                simp only [List.mem_cons, ImpEvent.failNF.injEq] at hnm
                rcases hnm with h1 | h1
                · subst h1; exact henv
                · exact ihc nm h1
              · intro nm hnm
                simp only [List.mem_cons] at hnm
                rcases hnm with h1 | h1
                · cases h1
                · exact ihd nm h1
            · simp only [import_module, hl, henv]
              refine ⟨by simp, by simp, by simp, ?_⟩
              intro nm hnm
              simp only [List.mem_singleton, ImpEvent.failOther.injEq] at hnm
              subst hnm
              exact henv
          · simp only [import_module, hl]
            simp
      · rw [if_neg hs]
        exact ih st

/-- When every candidate is unavailable, ineligible, or set to fail its
fresh load with `ImportError` while not conflicting with the loaded
variant, the loop returns `None`. -/
theorem loop_all_fail (cfg : Args) (env : String → LoadResult) :
    ∀ (names : List (Option String × String)) (st : SysState),
      (∀ p ∈ names, p.2 ∈ st.not_available_modules ∨
        should_import cfg p.1 = false ∨
        (lookupMod st.sys_modules p.2 = none ∧ env p.2 = LoadResult.importError ∧
          conflict_check st.imported_module p.2 = false)) →
      (llama_cpp_lib_loop cfg env names st).1 = CallResult.ret none := by
  intro names
  induction names with
  | nil => intro st _; rfl
  | cons c rest ih =>
    obtain ⟨arg, lib_name⟩ := c
    intro st hall
    by_cases hmem : lib_name ∈ st.not_available_modules
    · rw [llama_cpp_lib_loop, if_pos hmem]
      exact ih st (fun p hp => hall p (List.mem_cons_of_mem _ hp))
    · rcases hall (arg, lib_name) (List.mem_cons_self _ _) with h1 | h1 | ⟨hlk, henv, hcc⟩
      · exact absurd h1 hmem
      · rw [llama_cpp_lib_loop, if_neg hmem, if_neg (by simp [h1])]
        exact ih st (fun p hp => hall p (List.mem_cons_of_mem _ hp))
      · by_cases hs : should_import cfg arg = true
        · rw [llama_cpp_lib_loop, if_neg hmem, if_pos hs, if_neg (by simp [hcc])]
          simp only [import_module, hlk, henv]
          exact ih _ (fun p hp => by
            rcases hall p (List.mem_cons_of_mem _ hp) with h2 | h2 | ⟨h2, h3, h4⟩
            · exact Or.inl (List.mem_cons_of_mem _ h2)
            · exact Or.inr (Or.inl h2)
            · exact Or.inr (Or.inr ⟨h2, h3, h4⟩))
        · rw [llama_cpp_lib_loop, if_neg hmem, if_neg hs]
          exact ih st (fun p hp => hall p (List.mem_cons_of_mem _ hp))

/-- Repeating calls from a fixpoint state yields the same result every
time, each call contributing a single cache-hit event. -/
theorem runCalls_fixpoint (cfg : Args) (env : String → LoadResult) (is_macos : Bool)
    (st1 : SysState) (l : Lib) (nm : String)
    (hfix : llama_cpp_lib cfg env is_macos st1 =
      (CallResult.ret (some l), st1, [ImpEvent.hit nm])) :
    ∀ n, runCalls cfg env is_macos n st1 =
      (List.replicate n (CallResult.ret (some l)), st1,
        List.replicate n (ImpEvent.hit nm)) := by
  intro n
  induction n with
  | zero => rfl
  | succ k ihk =>
    rw [runCalls, hfix]
    simp [ihk, List.replicate_succ]

/-- Load-attempt counts add up over concatenated traces. -/
theorem numLoadAttempts_append (a b : List ImpEvent) :
    numLoadAttempts (a ++ b) = numLoadAttempts a + numLoadAttempts b := by
  simp [numLoadAttempts, List.filter_append]

/-- Cache hits are not load attempts. -/
theorem numLoadAttempts_replicate_hit (n : Nat) (nm : String) :
    numLoadAttempts (List.replicate n (ImpEvent.hit nm)) = 0 := by
  induction n with
  | zero => rfl
  | succ k ihk => simp [List.replicate_succ, numLoadAttempts, isLoadAttempt]

/-! ## Helper lemmas about the batched evaluation loop -/

/-- Writing a batch does not change the array length. -/
theorem setSlice_length (b : List Int) : ∀ (a : List Int) (s : Nat),
    (setSlice a s b).length = a.length := by
  induction b with
  | nil => intro a s; rfl
  | cons x xs ih => intro a s; simp [setSlice, ih]

/-- Writing a block of score rows does not change the array length. -/
theorem setRows_length {α : Type} (f : Nat → α) (s n : Nat) (a : List α) :
    (setRows a s n f).length = a.length := by
  rw [setRows]
  generalize List.range n = l
  induction l generalizing a with
  | nil => rfl
  | cons x xs ih => simp [List.foldl_cons, ih]

/-- A slice write does not touch indices below its start. -/
theorem setSlice_getElem?_lt (b : List Int) : ∀ (a : List Int) (s j : Nat), j < s →
    (setSlice a s b)[j]? = a[j]? := by
  induction b with
  | nil => intro a s j _; rfl
  | cons x xs ih =>
    intro a s j hj
    rw [setSlice, ih _ _ _ (Nat.lt_succ_of_lt hj)]
    rw [List.getElem?_set]
    simp [Nat.ne_of_gt hj]

/-- An in-bounds slice write stores the batch elementwise. -/
theorem setSlice_getElem? (b : List Int) : ∀ (a : List Int) (s k : Nat),
    k < b.length → s + b.length ≤ a.length →
    (setSlice a s b)[s + k]? = b[k]? := by
  induction b with
  | nil => intro a s k hk _; simp at hk
  | cons x xs ih =>
    intro a s k hk hcap
    match k with
    | 0 =>
      simp only [Nat.add_zero]
      rw [setSlice, setSlice_getElem?_lt _ _ _ _ (Nat.lt_succ_self s)]
      have hsa : s < a.length := by simp at hcap; omega
      rw [List.getElem?_set]
      simp [hsa]
    | k' + 1 =>
      rw [setSlice]
      have := ih (a.set s x) (s + 1) k' (by simpa using hk)
        (by simp at hcap ⊢; omega)
      rw [show s + (k' + 1) = s + 1 + k' by omega, this]
      simp

/-- With enough fuel, the batches taken by the loop from offset `i`
concatenate to exactly the remaining tokens. -/
theorem eval_loop_flatten {α : Type} (L : Nat → Nat → α) (tokens : List Int) (nb : Nat)
    (hnb : 0 < nb) :
    ∀ (fuel i : Nat) (st : EvalSt α), tokens.length - i ≤ fuel →
      ((eval_loop L tokens nb fuel i st).2.1).flatten = tokens.drop i := by
  intro fuel
  induction fuel with
  | zero =>
    intro i st hf
    simp [eval_loop, List.drop_eq_nil_of_le (by omega : tokens.length ≤ i)]
  | succ f ihf =>
    intro i st hf
    by_cases h : i < tokens.length
    · rw [eval_loop, if_pos h]
      simp only [List.flatten_cons]
      rw [ihf (i + nb) _ (by omega)]
      have hdd : (List.drop i tokens).drop (tokens.length ⊓ (i + nb) - i) =
          List.drop (i + nb) tokens := by
        rw [List.drop_drop]
        by_cases hle : i + nb ≤ tokens.length
        · have hmin : tokens.length ⊓ (i + nb) = i + nb := min_eq_right hle
          rw [hmin, show i + (i + nb - i) = i + nb by omega]
        · have hmin : tokens.length ⊓ (i + nb) = tokens.length := min_eq_left (by omega)
          rw [hmin]
          rw [List.drop_eq_nil_of_le (by omega), List.drop_eq_nil_of_le (by omega)]
      rw [← hdd, List.take_append_drop]
    · rw [eval_loop, if_neg h]
      simp [List.drop_eq_nil_of_le (by omega : tokens.length ≤ i)]

/-- With enough fuel, one loop run adds the number of remaining tokens to
`n_tokens` and preserves the array lengths and the `logits_all` flag. -/
theorem eval_loop_state {α : Type} (L : Nat → Nat → α) (tokens : List Int) (nb : Nat)
    (hnb : 0 < nb) :
    ∀ (fuel i : Nat) (st : EvalSt α), tokens.length - i ≤ fuel →
      (eval_loop L tokens nb fuel i st).1.n_tokens = st.n_tokens + (tokens.length - i) ∧
      (eval_loop L tokens nb fuel i st).1.input_ids.length = st.input_ids.length ∧
      (eval_loop L tokens nb fuel i st).1.scores.length = st.scores.length ∧
      (eval_loop L tokens nb fuel i st).1.logits_all = st.logits_all := by
  intro fuel
  induction fuel with
  | zero =>
    intro i st hf
    rw [eval_loop]
    simp [show tokens.length - i = 0 by omega]
  | succ f ihf =>
    intro i st hf
    by_cases h : i < tokens.length
    · rw [eval_loop, if_pos h]
      have hlen : (List.take (tokens.length ⊓ (i + nb) - i) (List.drop i tokens)).length =
          tokens.length ⊓ (i + nb) - i := by
        simp [List.length_take, List.length_drop]
        omega
      by_cases hla : st.logits_all = true
      · simp only [hla, if_true]
        refine ⟨?_, ?_, ?_, ?_⟩
        · rw [(ihf (i + nb) _ (by omega)).1]
          simp only [hlen]
          omega
        · rw [(ihf (i + nb) _ (by omega)).2.1]
          simp [setSlice_length]
        · rw [(ihf (i + nb) _ (by omega)).2.2.1]
          simp [setRows_length]
        · rw [(ihf (i + nb) _ (by omega)).2.2.2]
      · have hla' : st.logits_all = false := by simpa using hla
        simp only [hla', Bool.false_eq_true, if_false]
        refine ⟨?_, ?_, ?_, ?_⟩
        · rw [(ihf (i + nb) _ (by omega)).1]
          simp only [hlen]
          omega
        · rw [(ihf (i + nb) _ (by omega)).2.1]
          simp [setSlice_length]
        · rw [(ihf (i + nb) _ (by omega)).2.2.1]
          simp
        · rw [(ihf (i + nb) _ (by omega)).2.2.2]
    · rw [eval_loop, if_neg h]
      simp [show tokens.length - i = 0 by omega]

/-- The loop never writes `input_ids` below the starting `n_tokens`. -/
theorem eval_loop_input_frame {α : Type} (L : Nat → Nat → α) (tokens : List Int) (nb : Nat) :
    ∀ (fuel i : Nat) (st : EvalSt α) (j : Nat), j < st.n_tokens →
      (eval_loop L tokens nb fuel i st).1.input_ids[j]? = st.input_ids[j]? := by
  intro fuel
  induction fuel with
  | zero =>
    intro i st j hj
    rfl
  | succ f ihf =>
    intro i st j hj
    by_cases h : i < tokens.length
    · rw [eval_loop, if_pos h]
      by_cases hla : st.logits_all = true
      · simp only [hla, if_true]
        refine Eq.trans (ihf (i + nb) _ j ?_) ?_
        · simp
          omega
        · exact setSlice_getElem?_lt _ _ _ _ hj
      · have hla' : st.logits_all = false := by simpa using hla
        simp only [hla', Bool.false_eq_true, if_false]
        refine Eq.trans (ihf (i + nb) _ j ?_) ?_
        · simp
          omega
        · exact setSlice_getElem?_lt _ _ _ _ hj
    · rw [eval_loop, if_neg h]

/-- With enough fuel and capacity, position `st.n_tokens + k` of the final
`input_ids` holds token `i + k`: the tokens are saved in order at the
positions following the starting `n_tokens`. -/
theorem eval_loop_input_content {α : Type} (L : Nat → Nat → α) (tokens : List Int) (nb : Nat)
    (hnb : 0 < nb) :
    ∀ (fuel i : Nat) (st : EvalSt α) (k : Nat), tokens.length - i ≤ fuel →
      st.n_tokens + (tokens.length - i) ≤ st.input_ids.length →
      k < tokens.length - i →
      (eval_loop L tokens nb fuel i st).1.input_ids[st.n_tokens + k]? = tokens[i + k]? := by
  intro fuel
  induction fuel with
  | zero =>
    intro i st k hf hcap hk
    omega
  | succ f ihf =>
    intro i st k hf hcap hk
    have h : i < tokens.length := by omega
    rw [eval_loop, if_pos h]
    have hlen : (List.take (tokens.length ⊓ (i + nb) - i) (List.drop i tokens)).length =
        tokens.length ⊓ (i + nb) - i := by
      simp [List.length_take, List.length_drop]
      omega
    by_cases hla : st.logits_all = true
    · simp only [hla, if_true]
      by_cases hk2 : k < tokens.length ⊓ (i + nb) - i
      · refine Eq.trans (eval_loop_input_frame L tokens nb f (i + nb) _ _ ?_) ?_
        · simp only [hlen]
          simp
          omega
        · rw [setSlice_getElem? _ _ _ _ (by omega) (by rw [hlen]; omega)]
          rw [List.getElem?_take_of_lt hk2, List.getElem?_drop]
      · have hm : tokens.length ⊓ (i + nb) - i = nb := by omega
        rw [show st.n_tokens + k =
            st.n_tokens + (List.take (tokens.length ⊓ (i + nb) - i) (List.drop i tokens)).length
              + (k - nb) from by rw [hlen, hm]; omega,
          show i + k = (i + nb) + (k - nb) from by omega]
        exact ihf (i + nb) _ (k - nb) (by omega)
          (by simp [setSlice_length, hlen, hm]; omega) (by omega)
    · have hla' : st.logits_all = false := by simpa using hla
      simp only [hla', Bool.false_eq_true, if_false]
      by_cases hk2 : k < tokens.length ⊓ (i + nb) - i
      · refine Eq.trans (eval_loop_input_frame L tokens nb f (i + nb) _ _ ?_) ?_
        · simp only [hlen]
          simp
          omega
        · rw [setSlice_getElem? _ _ _ _ (by omega) (by rw [hlen]; omega)]
          rw [List.getElem?_take_of_lt hk2, List.getElem?_drop]
      · have hm : tokens.length ⊓ (i + nb) - i = nb := by omega
        rw [show st.n_tokens + k =
            st.n_tokens + (List.take (tokens.length ⊓ (i + nb) - i) (List.drop i tokens)).length
              + (k - nb) from by rw [hlen, hm]; omega,
          show i + k = (i + nb) + (k - nb) from by omega]
        exact ihf (i + nb) _ (k - nb) (by omega)
          (by simp [setSlice_length, hlen, hm]; omega) (by omega)

/-- Every single-row score write of the loop uses exactly the clamped
index `min (n_past + n_tokens - 1) (scores.length - 1)` of its iteration,
with the batch nonempty and the scores length unchanged from the start. -/
theorem eval_loop_score_writes {α : Type} (L : Nat → Nat → α) (tokens : List Int) (nb : Nat)
    (hnb : 0 < nb) :
    ∀ (fuel i : Nat) (st : EvalSt α),
      ∀ w ∈ (eval_loop L tokens nb fuel i st).2.2,
        w.idx = min ((w.n_past : Int) + (w.len : Int) - 1) ((st.scores.length : Int) - 1) ∧
        1 ≤ w.len := by
  intro fuel
  induction fuel with
  | zero =>
    intro i st w hw
    simp [eval_loop] at hw
  | succ f ihf =>
    intro i st w hw
    by_cases h : i < tokens.length
    · rw [eval_loop, if_pos h] at hw
      have hlen : (List.take (tokens.length ⊓ (i + nb) - i) (List.drop i tokens)).length =
          tokens.length ⊓ (i + nb) - i := by
        simp [List.length_take, List.length_drop]
        omega
      by_cases hla : st.logits_all = true
      · simp only [hla, if_true] at hw
        simp only [List.nil_append] at hw
        have := ihf (i + nb) _ w hw
        rwa [show (setRows st.scores st.n_tokens
            (List.take (tokens.length ⊓ (i + nb) - i) (List.drop i tokens)).length
            (L i)).length = st.scores.length from setRows_length _ _ _ _] at this
      · have hla' : st.logits_all = false := by simpa using hla
        simp only [hla', Bool.false_eq_true, if_false] at hw
        simp only [List.cons_append, List.nil_append, List.mem_cons] at hw
        rcases hw with hw | hw
        · subst hw
          refine ⟨by simp, ?_⟩
          simp only [hlen]
          omega
        · have := ihf (i + nb) _ w hw
          rwa [show (st.scores.set
              ((((st.n_tokens : Int) +
                  ((List.take (tokens.length ⊓ (i + nb) - i) (List.drop i tokens)).length : Int)
                  - 1) ⊓ ((st.scores.length : Int) - 1)).toNat)
              (L i 0)).length = st.scores.length from List.length_set _ _ _] at this
    · rw [eval_loop, if_neg h] at hw
      simp at hw

/-- With `logits_all` disabled the loop makes exactly one single-row score
write per batch. -/
theorem eval_loop_write_count {α : Type} (L : Nat → Nat → α) (tokens : List Int) (nb : Nat) :
    ∀ (fuel i : Nat) (st : EvalSt α), st.logits_all = false →
      (eval_loop L tokens nb fuel i st).2.2.length =
        (eval_loop L tokens nb fuel i st).2.1.length := by
  intro fuel
  induction fuel with
  | zero =>
    intro i st hla
    rfl
  | succ f ihf =>
    intro i st hla
    by_cases h : i < tokens.length
    · rw [eval_loop, if_pos h]
      simp only [hla, Bool.false_eq_true, if_false]
      simp only [List.cons_append, List.nil_append, List.length_cons, List.length_append]
      rw [ihf (i + nb) _ (by simp)]
    · rw [eval_loop, if_neg h]
      rfl

/-- A list whose elements occupy positions `p, …, p + n - 1` of `l` is the
slice `l[p : p + n]`. -/
theorem slice_eq_of_pointwise (l tokens : List Int) (p : Nat)
    (h : ∀ k, k < tokens.length → l[p + k]? = tokens[k]?) :
    (l.drop p).take tokens.length = tokens := by
  apply List.ext_getElem?
  intro j
  by_cases hj : j < tokens.length
  · rw [List.getElem?_take_of_lt hj, List.getElem?_drop]
    exact h j hj
  · have h1 : ((l.drop p).take tokens.length).length ≤ j := by
      simp only [List.length_take, List.length_drop]
      omega
    rw [List.getElem?_eq_none h1, List.getElem?_eq_none (by omega)]

/-! ## Witness fixtures: concrete handles, environments, configurations -/

/-- A concrete unpatched handle without a formatter module. -/
def libFixture : Lib := ⟨⟨EvalFn.base 0, GenFn.base 0, none, false⟩, none⟩

/-- A concrete unpatched handle with an unpatched formatter class. -/
def libFixture2 : Lib := ⟨⟨EvalFn.base 1, GenFn.base 1, none, false⟩, some ⟨InitFn.base 1, false⟩⟩

/-- `libFixture` after one application of the patch step. -/
def libPatched : Lib := monkey_patch_llama_cpp_python libFixture

/-- Environment where only the fallback variant is installed. -/
def envFixture : String → LoadResult := fun name =>
  if name = "llama_cpp" then LoadResult.ok libFixture else LoadResult.importError

/-- Environment where only the tensorcores CUDA variant is installed. -/
def envTC : String → LoadResult := fun name =>
  if name = "llama_cpp_cuda_tensorcores" then LoadResult.ok libFixture2
  else LoadResult.importError

/-- Environment where no variant is installed. -/
def envNF : String → LoadResult := fun _ => LoadResult.importError

/-- Configuration with both capability flags off. -/
def cfgPlain : Args := ⟨false, false, false⟩

/-- Configuration requesting the tensorcores variant. -/
def cfgTC : Args := ⟨false, true, false⟩

/-- The fresh process state: nothing loaded, nothing unavailable, empty
module cache. -/
def stInit : SysState := ⟨none, [], []⟩

/-- A process state in which the fallback variant is already loaded. -/
def stLoaded : SysState := ⟨some "llama_cpp", [], []⟩

/-- A process state with one variant known unavailable. -/
def stUnavail : SysState := ⟨none, ["llama_cpp_cuda"], []⟩

/-- The state after a successful first call for the fallback variant on
macOS. -/
def stAfter : SysState := ⟨some "llama_cpp", [], [("llama_cpp", libPatched)]⟩

/-- The state after loading the tensorcores variant on a non-macOS host
with `cfgTC` against `envTC`. -/
def stTC : SysState := (llama_cpp_lib cfgTC envTC false stInit).2.1

/-- Logits oracle returning a constant row, for concrete runs. -/
def LW : Nat → Nat → Nat := fun _ _ => 0

/-- A concrete `Llama` instance state: 3-slot context, batch size 2,
per-token logits disabled. -/
def stW9 : EvalSt Nat := ⟨0, 2, false, [0, 0, 0], [0], 0⟩

theorem hW9 : 0 < stW9.n_batch := by decide

/-- A concrete `Llama` instance state whose scores array (2 rows) is
shorter than the token positions reached (overflow case). -/
def stW10 : EvalSt Nat := ⟨1, 2, false, [0, 0, 0, 0], [9, 9], 0⟩

theorem hW10 : 0 < stW10.n_batch := by decide

/-! ## Claims -/

/-- C1: For every `llama_cpp_lib` call in a process state where a variant
is already loaded (the loaded-variant marker holds a variant name), if the
first candidate that is not in the unavailable set and is eligible under
the current configuration names a different variant than the loaded one,
the call raises the conflict exception — whose message names both variants
and states that switching requires a server restart — and neither the
loaded-variant marker nor the unavailable-variant set (nor anything else
in the process state) is modified, with no import attempted. -/
theorem C1_conflict_on_other_variant (cfg : Args) (env : String → LoadResult)
    (is_macos : Bool) (st : SysState) (m : String) (arg : Option String) (nm : String)
    (hm : st.imported_module = some m) (hmne : m ≠ "")
    (hfc : firstCandidate cfg st.not_available_modules (lib_names is_macos) = some (arg, nm))
    (hne : nm ≠ m) :
    llama_cpp_lib cfg env is_macos st =
      (CallResult.conflictExc (conflictMsg nm m), st, []) ∧
    conflictMsg nm m =
      "Cannot import `" ++ nm ++ "` because `" ++ m ++
        "` is already imported. Switching to a different version of llama-cpp-python currently requires a server restart." :=
  ⟨loop_conflict cfg env (lib_names is_macos) st m arg nm hm hmne hfc hne, rfl⟩

theorem C1_witness :
    llama_cpp_lib cfgTC envNF false stLoaded =
      (CallResult.conflictExc (conflictMsg "llama_cpp_cuda_tensorcores" "llama_cpp"),
        stLoaded, []) :=
  (C1_conflict_on_other_variant cfgTC envNF false stLoaded "llama_cpp"
    (some "tensorcores") "llama_cpp_cuda_tensorcores" rfl (by decide) (by decide)
    (by decide)).1

/-- C2: Once a variant name is in the unavailable set, any later
`llama_cpp_lib` call keeps it there (the set only grows), and never passes
it to `importlib.import_module` again: no import event of the call
mentions it. -/
theorem C2_unavailable_skipped_forever (cfg : Args) (env : String → LoadResult)
    (is_macos : Bool) (st : SysState) (nm : String)
    (h : nm ∈ st.not_available_modules) :
    nm ∈ (llama_cpp_lib cfg env is_macos st).2.1.not_available_modules ∧
    ∀ e ∈ (llama_cpp_lib cfg env is_macos st).2.2, eventName e ≠ nm :=
  ⟨loop_na_mono cfg env (lib_names is_macos) st nm h,
   loop_no_event_of_na cfg env (lib_names is_macos) st nm h⟩

theorem C2_witness :
    "llama_cpp_cuda" ∈
      (llama_cpp_lib cfgPlain envFixture false stUnavail).2.1.not_available_modules ∧
    ∀ e ∈ (llama_cpp_lib cfgPlain envFixture false stUnavail).2.2,
      eventName e ≠ "llama_cpp_cuda" :=
  C2_unavailable_skipped_forever cfgPlain envFixture false stUnavail "llama_cpp_cuda"
    (by decide)

/-- C3: Once the loaded-variant marker holds a variant name (variant names
are nonempty strings), no later `llama_cpp_lib` call, under any
configuration, changes it to a different name: either the call keeps the
marker or the conflict exception is raised before any assignment. -/
theorem C3_marker_immutable (cfg : Args) (env : String → LoadResult)
    (is_macos : Bool) (st : SysState) (m : String)
    (hm : st.imported_module = some m) (hmne : m ≠ "") :
    (llama_cpp_lib cfg env is_macos st).2.1.imported_module = some m :=
  loop_imported_preserved cfg env (lib_names is_macos) st m hm hmne

theorem C3_witness :
    (llama_cpp_lib cfgPlain envFixture false stLoaded).2.1.imported_module =
      some "llama_cpp" :=
  C3_marker_immutable cfgPlain envFixture false stLoaded "llama_cpp" rfl (by decide)

/-- C4: When a `llama_cpp_lib` call performs exactly one fresh load and
returns a handle, every later call under the same configuration and
environment returns that same handle, and across the whole sequence of
`n + 1` calls exactly one fresh load attempt occurs: each later call is
served by a single `sys.modules` cache hit. -/
theorem C4_single_load_cached_handle (cfg : Args) (env : String → LoadResult)
    (is_macos : Bool) (st st1 : SysState) (l : Lib) (nm : String)
    (h : llama_cpp_lib cfg env is_macos st =
      (CallResult.ret (some l), st1, [ImpEvent.load nm])) :
    ∀ n, (runCalls cfg env is_macos (n + 1) st).1 =
        List.replicate (n + 1) (CallResult.ret (some l)) ∧
      numLoadAttempts (runCalls cfg env is_macos (n + 1) st).2.2 = 1 := by
  intro n
  obtain ⟨nm', hnm', hfix⟩ :=
    loop_success_fixpoint cfg env (lib_names is_macos) st st1 l [ImpEvent.load nm] h
  have hrun := runCalls_fixpoint cfg env is_macos st1 l nm' hfix n
  constructor
  · rw [runCalls]
    simp only [h, hrun]
    simp [List.replicate_succ]
  · rw [runCalls]
    simp only [h, hrun]
    rw [numLoadAttempts_append, numLoadAttempts_replicate_hit]
    rfl

theorem C4_witness :
    (runCalls cfgPlain envFixture true (2 + 1) stInit).1 =
      List.replicate (2 + 1) (CallResult.ret (some libPatched)) ∧
    numLoadAttempts (runCalls cfgPlain envFixture true (2 + 1) stInit).2.2 = 1 :=
  C4_single_load_cached_handle cfgPlain envFixture true stInit stAfter libPatched
    "llama_cpp" (by decide) 2

/-- C5: `monkey_patch_llama_cpp_python` is idempotent: applying it a second
time is a no-op (the `_is_patched` marker set by the first application makes
it return immediately), and for a handle that was unpatched before the
first application, `original_generate` refers to the original unpatched
`generate` after one and after two applications — `generate` is never
wrapped twice. -/
theorem C5_monkey_patch_idempotent (lib : Lib)
    (h : lib.Llama.is_patched = false) :
    monkey_patch_llama_cpp_python (monkey_patch_llama_cpp_python lib) =
      monkey_patch_llama_cpp_python lib ∧
    (monkey_patch_llama_cpp_python lib).Llama.is_patched = true ∧
    (monkey_patch_llama_cpp_python lib).Llama.original_generate =
      some lib.Llama.generate ∧
    (monkey_patch_llama_cpp_python
        (monkey_patch_llama_cpp_python lib)).Llama.original_generate =
      some lib.Llama.generate := by
  have hog : (monkey_patch_llama_cpp_python lib).Llama.original_generate =
      some lib.Llama.generate := by
    unfold monkey_patch_llama_cpp_python
    rw [h]
    simp only [Bool.false_eq_true, if_false]
    cases lib.llama_chat_format with
    | none => simp
    | some fmt =>
      by_cases hf : fmt.is_patched = true <;> simp [hf]
  refine ⟨monkey_patch_idem lib, monkey_patch_is_patched lib, hog, ?_⟩
  rw [monkey_patch_idem lib]
  exact hog

theorem C5_witness :
    monkey_patch_llama_cpp_python (monkey_patch_llama_cpp_python libFixture2) =
      monkey_patch_llama_cpp_python libFixture2 ∧
    (monkey_patch_llama_cpp_python libFixture2).Llama.is_patched = true ∧
    (monkey_patch_llama_cpp_python libFixture2).Llama.original_generate =
      some libFixture2.Llama.generate ∧
    (monkey_patch_llama_cpp_python
        (monkey_patch_llama_cpp_python libFixture2)).Llama.original_generate =
      some libFixture2.Llama.generate :=
  C5_monkey_patch_idempotent libFixture2 (by decide)

/-- C6: During one `llama_cpp_lib` call, exactly the "module not found"
(`ImportError`) fresh-load failures are recovered locally: the unavailable
set after the call contains precisely its previous elements plus the names
whose fresh load failed with `ImportError`; the call raises a propagated
(non-conflict) exception precisely when some fresh load failed with a
different exception, which is then never recorded as unavailable; and each
failure event reflects the environment's outcome for that name. -/
theorem C6_only_importerror_recovered (cfg : Args) (env : String → LoadResult)
    (is_macos : Bool) (st : SysState) :
    (∀ nm, nm ∈ (llama_cpp_lib cfg env is_macos st).2.1.not_available_modules ↔
      (nm ∈ st.not_available_modules ∨
        ImpEvent.failNF nm ∈ (llama_cpp_lib cfg env is_macos st).2.2)) ∧
    ((∃ nm, ImpEvent.failOther nm ∈ (llama_cpp_lib cfg env is_macos st).2.2) ↔
      (llama_cpp_lib cfg env is_macos st).1 = CallResult.otherExc) ∧
    (∀ nm, ImpEvent.failNF nm ∈ (llama_cpp_lib cfg env is_macos st).2.2 →
      env nm = LoadResult.importError) ∧
    (∀ nm, ImpEvent.failOther nm ∈ (llama_cpp_lib cfg env is_macos st).2.2 →
      env nm = LoadResult.otherError) :=
  loop_error_class cfg env (lib_names is_macos) st

theorem C6_witness :
    "llama_cpp" ∈ (llama_cpp_lib cfgPlain envNF false stInit).2.1.not_available_modules ∧
    envNF "llama_cpp" = LoadResult.importError :=
  ⟨((C6_only_importerror_recovered cfgPlain envNF false stInit).1 "llama_cpp").mpr
      (Or.inr (by decide)),
    (C6_only_importerror_recovered cfgPlain envNF false stInit).2.2.1 "llama_cpp"
      (by decide)⟩

/-- C7 (amended): for every configuration and process state in which every
candidate of the platform's list is either in the unavailable set,
ineligible under the configuration, or set to fail its fresh load with the
"module not found" error while not conflicting with an already-loaded
variant, `llama_cpp_lib` returns `None` rather than raising. (The original
claim, without the no-conflict proviso, fails: see the counterexample.) -/
theorem C7_all_fail_returns_none (cfg : Args) (env : String → LoadResult)
    (is_macos : Bool) (st : SysState)
    (hall : ∀ p ∈ lib_names is_macos,
      p.2 ∈ st.not_available_modules ∨
      should_import cfg p.1 = false ∨
      (lookupMod st.sys_modules p.2 = none ∧ env p.2 = LoadResult.importError ∧
        conflict_check st.imported_module p.2 = false)) :
    (llama_cpp_lib cfg env is_macos st).1 = CallResult.ret none :=
  loop_all_fail cfg env (lib_names is_macos) st hall

theorem C7_witness :
    (llama_cpp_lib cfgPlain envNF false stInit).1 = CallResult.ret none :=
  C7_all_fail_returns_none cfgPlain envNF false stInit (by decide)

/-- C7 counterexample: in the reachable state `stTC` (the tensorcores
variant was loaded by a first call), under a configuration with both flags
off, every candidate is ineligible or fails to import (not found, not
cached), yet the call raises the conflict exception instead of returning
`None`: the claim as stated is false. -/
theorem C7_counterexample :
    (∀ p ∈ lib_names false,
      p.2 ∈ stTC.not_available_modules ∨
      should_import cfgPlain p.1 = false ∨
      (lookupMod stTC.sys_modules p.2 = none ∧ envTC p.2 = LoadResult.importError)) ∧
    (llama_cpp_lib cfgPlain envTC false stTC).1 =
      CallResult.conflictExc
        (conflictMsg "llama_cpp_cuda" "llama_cpp_cuda_tensorcores") ∧
    (llama_cpp_lib cfgPlain envTC false stTC).1 ≠ CallResult.ret none := by
  set_option maxRecDepth 4096 in decide

/-- C8: the candidate list of `llama_cpp_lib` on macOS has exactly one
entry, the ungated fallback variant, and does not depend on any
configuration flag (every import event of a macOS call concerns
`llama_cpp` only, whatever the configuration); on other platforms it has
exactly the four entries cpu-gated fallback, tensorcores-gated CUDA,
ungated CUDA, ungated fallback, in that order. -/
theorem C8_candidate_lists (cfg : Args) (env : String → LoadResult) (st : SysState) :
    lib_names true = [(none, "llama_cpp")] ∧
    (lib_names true).length = 1 ∧
    lib_names false =
      [(some "cpu", "llama_cpp"),
       (some "tensorcores", "llama_cpp_cuda_tensorcores"),
       (none, "llama_cpp_cuda"),
       (none, "llama_cpp")] ∧
    (lib_names false).length = 4 ∧
    (∀ e ∈ (llama_cpp_lib cfg env true st).2.2, eventName e = "llama_cpp") := by
  refine ⟨rfl, rfl, rfl, rfl, ?_⟩
  intro e he
  have := loop_event_names cfg env (lib_names true) st e he
  simpa [lib_names] using this

theorem C8_witness :
    lib_names true = [(none, "llama_cpp")] ∧
    eventName (ImpEvent.load "llama_cpp") = "llama_cpp" :=
  ⟨(C8_candidate_lists cfgPlain envFixture stInit).1,
    (C8_candidate_lists cfgPlain envFixture stInit).2.2.2.2
      (ImpEvent.load "llama_cpp") (by decide)⟩

/-- C9: for every nonempty token sequence, positive batch size and
sufficient `input_ids` capacity, `eval_with_progress` processes every
token exactly once and in order: the batches taken by the loop concatenate
to the input sequence, `n_tokens` grows by exactly the number of tokens,
and the slice `input_ids[p : p + tokens.length]` (where `p` is `n_tokens`
before the call) equals the input tokens. -/
theorem C9_tokens_processed_in_order {α : Type} (L : Nat → Nat → α)
    (st : EvalSt α) (tokens : List Int) (h : 0 < st.n_batch)
    (_hne : tokens ≠ [])
    (hcap : st.n_tokens + tokens.length ≤ st.input_ids.length) :
    ((eval_with_progress L st tokens h).2.1).flatten = tokens ∧
    (eval_with_progress L st tokens h).1.n_tokens = st.n_tokens + tokens.length ∧
    ((eval_with_progress L st tokens h).1.input_ids.drop st.n_tokens).take
      tokens.length = tokens := by
  refine ⟨?_, ?_, ?_⟩
  · have h1 := eval_loop_flatten L tokens st.n_batch h tokens.length 0 st (by omega)
    simpa using h1
  · have h2 := (eval_loop_state L tokens st.n_batch h tokens.length 0 st (by omega)).1
    simpa using h2
  · apply slice_eq_of_pointwise
    intro k hk
    have h3 := eval_loop_input_content L tokens st.n_batch h tokens.length 0 st k
      (by omega) (by simpa using hcap) (by omega)
    simpa using h3

theorem C9_witness :
    ((eval_with_progress LW stW9 [5, 6, 7] hW9).2.1).flatten = [5, 6, 7] ∧
    (eval_with_progress LW stW9 [5, 6, 7] hW9).1.n_tokens =
      stW9.n_tokens + ([5, 6, 7] : List Int).length ∧
    ((eval_with_progress LW stW9 [5, 6, 7] hW9).1.input_ids.drop stW9.n_tokens).take
      ([5, 6, 7] : List Int).length = [5, 6, 7] :=
  C9_tokens_processed_in_order LW stW9 [5, 6, 7] hW9 (by decide) (by decide)

/-- C10: with `logits_all` disabled and a nonempty scores array, every
single-row score write of `eval_with_progress` uses exactly the row index
`min (n_past + n_tokens - 1) (scores.length - 1)` of its iteration, which
is always within the bounds of `scores` even when the token position
overflows the array, and exactly one such write happens per batch. -/
theorem C10_score_write_clamped {α : Type} (L : Nat → Nat → α)
    (st : EvalSt α) (tokens : List Int) (h : 0 < st.n_batch)
    (hla : st.logits_all = false) (hs : 1 ≤ st.scores.length) :
    (∀ w ∈ (eval_with_progress L st tokens h).2.2,
      w.idx = min ((w.n_past : Int) + (w.len : Int) - 1)
        ((st.scores.length : Int) - 1) ∧
      0 ≤ w.idx ∧ w.idx < (st.scores.length : Int)) ∧
    (eval_with_progress L st tokens h).2.2.length =
      (eval_with_progress L st tokens h).2.1.length := by
  constructor
  · intro w hw
    obtain ⟨hidx, hlen1⟩ :=
      eval_loop_score_writes L tokens st.n_batch h tokens.length 0 st w hw
    refine ⟨hidx, ?_, ?_⟩
    · rw [hidx]
      omega
    · rw [hidx]
      omega
  · exact eval_loop_write_count L tokens st.n_batch tokens.length 0 st hla

theorem C10_witness :
    ((⟨1, 2, 1⟩ : ScoreWrite).idx =
        min (((⟨1, 2, 1⟩ : ScoreWrite).n_past : Int) +
          ((⟨1, 2, 1⟩ : ScoreWrite).len : Int) - 1) ((stW10.scores.length : Int) - 1) ∧
      0 ≤ (⟨1, 2, 1⟩ : ScoreWrite).idx ∧
      (⟨1, 2, 1⟩ : ScoreWrite).idx < (stW10.scores.length : Int)) ∧
    (eval_with_progress LW stW10 [4, 5, 6] hW10).2.2.length =
      (eval_with_progress LW stW10 [4, 5, 6] hW10).2.1.length :=
  ⟨(C10_score_write_clamped LW stW10 [4, 5, 6] hW10 (by decide) (by decide)).1
      ⟨1, 2, 1⟩ (by decide),
    (C10_score_write_clamped LW stW10 [4, 5, 6] hW10 (by decide) (by decide)).2⟩
